import Mathlib

/-!
Verification of the news-aggregation engine and batch pipeline of the
signalist stock tracker.

The embedding follows `src/lib/actions/finnhub.actions.ts` (article
validation/normalization and `getNews`) and the `sendDailyNewsSummary`
pipeline of `src/lib/inngest/functions.ts`.

External effects are modelled by an explicit environment `Env`:
* `apiKey` is the `FINNHUB_API_KEY` configuration value (an optional string,
  with JavaScript truthiness: absent or empty counts as unset);
* `fetchCompany s` is the outcome of the company-news HTTP fetch for symbol
  `s` (the date window and caching policy do not influence any verified
  property; identical requests within the cache window return the same
  response, hence the oracle is keyed by symbol);
* `fetchGeneral` is the outcome of the single general-news HTTP fetch;
* `now`/`rand` model `Date.now()` and the successive values of
  `Math.random()` used for fallback identifiers.

`getNews` additionally returns the trace of source-adapter calls it
performed, so that claims about which fetches happen are statable.
JavaScript exceptions are modelled with `Except`.
-/

namespace Signalist

/-- Raw provider article (`FinnhubArticle` in the source): every field is
optional. `datetime` is Unix seconds. -/
structure FinnhubArticle where
  id : Option String
  url : Option String
  headline : Option String
  summary : Option String
  image : Option String
  source : Option String
  category : Option String
  datetime : Option Int
deriving DecidableEq, Repr

/-- Normalized article (`FormattedArticle` in the source): every field is
present (total). `image` keeps its absent-marker (`null`) as `none`. -/
structure FormattedArticle where
  id : String
  headline : String
  summary : String
  image : Option String
  source : String
  url : String
  datetime : Int
deriving DecidableEq, Repr

/-- JavaScript truthiness of a possibly-undefined string: truthy iff present
and non-empty. -/
def strTruthy : Option String → Bool
  | some s => !(s == "")
  | none => false

/-- JavaScript truthiness of a possibly-undefined number: truthy iff present
and non-zero. -/
def intTruthy : Option Int → Bool
  | some n => !(n == 0)
  | none => false

/-- JavaScript `a || b` where `a` is a possibly-undefined string and `b` a
definite string. -/
def jsOrStr (a : Option String) (b : String) : String :=
  match a with
  | some s => if s == "" then b else s
  | none => b

/-- JavaScript `a || b` where both operands are possibly-undefined strings:
the first truthy operand, else the last operand as-is. -/
def jsOrOpt (a b : Option String) : Option String :=
  if strTruthy a then a else b

/-- JavaScript `a || b` for a possibly-undefined number. -/
def jsOrInt (a : Option Int) (b : Int) : Int :=
  match a with
  | some n => if n == 0 then b else n
  | none => b

/-- `validateArticle` from the source:
`!!((article.headline || article.url) && article.source && article.datetime)`. -/
def validateArticle (a : FinnhubArticle) : Bool :=
  (strTruthy a.headline || strTruthy a.url) && strTruthy a.source &&
    intTruthy a.datetime

/-- `formatArticle` from the source; `fresh` is the generated fallback
identifier (the string `Date.now()-Math.random()` built by the template
literal). -/
def formatArticle (fresh : String) (a : FinnhubArticle) : FormattedArticle :=
  { id := jsOrStr a.id (jsOrStr a.url fresh)
    headline := jsOrStr a.headline "No headline"
    summary := jsOrStr a.summary ""
    image := if strTruthy a.image then a.image else none
    source := jsOrStr a.source "Unknown"
    url := jsOrStr a.url ""
    datetime := jsOrInt a.datetime 0 }

/-- The dedupe key `article.id || article.url || article.headline`. -/
def dedupeKey (a : FinnhubArticle) : Option String :=
  jsOrOpt a.id (jsOrOpt a.url a.headline)

/-- The dedupe key as the plain string stored in the `Set`; only used after
the code has checked the key is truthy. -/
def keyStr (a : FinnhubArticle) : String :=
  (dedupeKey a).getD ""

/-- A call to the article-source adapter. -/
inductive Call where
  | company (symbol : String)
  | general
deriving DecidableEq, Repr

/-- The ambient effects consumed by `getNews`. -/
structure Env where
  apiKey : Option String
  fetchCompany : String → Except Unit (List FinnhubArticle)
  fetchGeneral : Except Unit (List FinnhubArticle)
  now : Nat
  rand : Nat → String

/-- The fallback identifier produced by the `k`-th evaluation of the
template literal `${Date.now()}-${Math.random()}` in one call. -/
def Env.fresh (e : Env) (k : Nat) : String :=
  toString e.now ++ "-" ++ e.rand k

/-- The mutable state of the selection loops: the accumulated formatted
`articles`, the `seen` dedupe-key set (`dedupeIds`), the raw articles
accepted so far (`raws`, the push trace), the count of fallback identifiers
generated, and the trace of adapter `calls`. -/
structure LoopState where
  articles : List FormattedArticle
  seen : List String
  raws : List FinnhubArticle
  counter : Nat
  calls : List Call

/-- The loop body that accepts article `a`: `articles.push(formatArticle(a));
dedupeIds.add(dedupeKey)`. -/
def pushArticle (e : Env) (st : LoopState) (a : FinnhubArticle) : LoopState :=
  { st with
    articles := st.articles ++ [formatArticle (e.fresh st.counter) a]
    seen := st.seen ++ [keyStr a]
    raws := st.raws ++ [a]
    counter := st.counter + 1 }

/-- The inner scan of one company-news response: the first article that is
valid and whose dedupe key is truthy and unseen (the loop `break`s there). -/
def findFirstNew (seen : List String) : List FinnhubArticle → Option FinnhubArticle
  | [] => none
  | a :: rest =>
    if validateArticle a && strTruthy (dedupeKey a) && !(seen.contains (keyStr a))
    then some a
    else findFirstNew seen rest

/-- The round-robin loop of company-news mode, over the list of remaining
round indices (`for (let round = 0; round < 6; round++)`).  Each round
fetches `cleaned[round % cleaned.length]`; a fetch failure is logged and the
loop `continue`s; after a round the loop `break`s when six articles have
accumulated. -/
def companyRounds (e : Env) (cleaned : List String) :
    List Nat → LoopState → LoopState
  | [], st => st
  | r :: rest, st =>
    let symbol := cleaned.getD (r % cleaned.length) ""
    let st₁ := { st with calls := st.calls ++ [Call.company symbol] }
    match e.fetchCompany symbol with
    | .error _ => companyRounds e cleaned rest st₁
    | .ok data =>
      match findFirstNew st₁.seen data with
      | some a =>
        let st₂ := pushArticle e st₁ a
        if 6 ≤ st₂.articles.length then st₂
        else companyRounds e cleaned rest st₂
      | none =>
        if 6 ≤ st₁.articles.length then st₁
        else companyRounds e cleaned rest st₁

/-- The scan of the general-news feed: accept each valid article with a
truthy unseen dedupe key, stopping once six are accepted. -/
def generalScan (e : Env) : List FinnhubArticle → LoopState → LoopState
  | [], st => st
  | a :: rest, st =>
    if validateArticle a && strTruthy (dedupeKey a) && !(st.seen.contains (keyStr a))
    then
      let st' := pushArticle e st a
      if 6 ≤ st'.articles.length then st'
      else generalScan e rest st'
    else generalScan e rest st

/-- Stable insertion into a list sorted by `datetime` descending: the new
element goes before the first element whose `datetime` is `≤` its own.  This
realizes the observable contract of the stable JavaScript
`articles.sort((a, b) => b.datetime - a.datetime)` when elements are
inserted in accumulation order. -/
def insertDesc (a : FormattedArticle) : List FormattedArticle → List FormattedArticle
  | [] => [a]
  | b :: bs => if b.datetime ≤ a.datetime then a :: b :: bs else b :: insertDesc a bs

/-- Stable sort by `datetime` descending
(`articles.sort((a, b) => b.datetime - a.datetime)`). -/
def sortDesc : List FormattedArticle → List FormattedArticle
  | [] => []
  | a :: rest => insertDesc a (sortDesc rest)

/-- JavaScript `String.prototype.trim`: strip whitespace from both ends. -/
def jsTrim (s : String) : String :=
  ⟨((s.data.dropWhile Char.isWhitespace).reverse.dropWhile Char.isWhitespace).reverse⟩

/-- JavaScript `String.prototype.toUpperCase` (on the ASCII symbols used
here): upper-case every character. -/
def jsToUpper (s : String) : String :=
  ⟨s.data.map Char.toUpper⟩

/-- The symbol normalization of company mode:
`symbols.map(s => s.trim().toUpperCase()).filter(s => s.length > 0)`. -/
def cleanSymbols (symbols : List String) : List String :=
  (symbols.map (fun s => jsToUpper (jsTrim s))).filter (fun s => 0 < s.length)

/-- Result of one `getNews` call: the returned list or thrown error message,
together with the trace of adapter calls performed. -/
structure NewsResult where
  result : Except String (List FormattedArticle)
  calls : List Call

/-- The loop state at entry of either mode. -/
def initState : LoopState :=
  { articles := [], seen := [], raws := [], counter := 0, calls := [] }

/-- The general-market-news branch of `getNews`: one fetch, scan, sort; a
fetch failure is rethrown as `'Failed to fetch news'` (by the inner catch,
and identically rewrapped by the outer catch). -/
def generalNews (e : Env) : NewsResult :=
  match e.fetchGeneral with
  | .error _ => { result := .error "Failed to fetch news", calls := [Call.general] }
  | .ok data =>
    let st := generalScan e data { initState with calls := [Call.general] }
    { result := .ok (sortDesc st.articles), calls := st.calls }

/-- `getNews` from the source.  `symbols = none` models a call with no
`symbols` argument.  The API-key guard precedes everything; a missing key
throws, and the outer catch rewraps every escaping error as
`'Failed to fetch news'`.  Company mode runs when a non-empty symbols array
was passed; it cleans the symbols, returns `[]` when nothing survives
cleaning, and otherwise round-robins six rounds, sorts, and truncates to six.
Otherwise the general branch runs. -/
def getNews (e : Env) (symbols : Option (List String)) : NewsResult :=
  if strTruthy e.apiKey = false then
    { result := .error "Failed to fetch news", calls := [] }
  else
    match symbols with
    | some syms =>
      if 0 < syms.length then
        let cleaned := cleanSymbols syms
        if cleaned.length = 0 then { result := .ok [], calls := [] }
        else
          let st := companyRounds e cleaned (List.range 6) initState
          { result := .ok ((sortDesc st.articles).take 6), calls := st.calls }
      else generalNews e
    | none => generalNews e

/-! ## The batch pipeline driver (`sendDailyNewsSummary`) -/

/-- A user as returned by the directory lookup (`getAllUsersForNewsEmail`). -/
structure User where
  id : String
  email : String
  name : String
deriving DecidableEq, Repr

/-- One entry of the batch result (`UserWithNews` in the source). -/
structure UserWithNews where
  userId : String
  email : String
  name : String
  symbols : List String
  articles : List FormattedArticle
deriving DecidableEq, Repr

/-- Effects consumed by the driver: the news environment and the watchlist
lookup (`getWatchlistSymbolsByEmail`, keyed by email, which may throw). -/
structure DriverEnv where
  newsEnv : Env
  getWatchlist : String → Except Unit (List String)

/-- The per-user body of the driver loop: resolve the watchlist (an error is
caught and replaced by `[]`), then fetch news with the symbols if non-empty
and with no argument otherwise (an error is caught and replaced by `[]`). -/
def processUser (d : DriverEnv) (u : User) : UserWithNews :=
  let symbols := match d.getWatchlist u.email with
    | .ok s => s
    | .error _ => []
  let articles :=
    match (getNews d.newsEnv (if 0 < symbols.length then some symbols else none)).result with
    | .ok l => l
    | .error _ => []
  { userId := u.id, email := u.email, name := u.name
    symbols := symbols, articles := articles }

/-- Outcome of one driver run: the early `success: false` return when the
directory yields no users, or the accumulated batch. -/
inductive DriverResult where
  | noUsers
  | processed (entries : List UserWithNews)
deriving DecidableEq, Repr

/-- `sendDailyNewsSummary` after the directory lookup succeeded with `users`:
early return if the user list is empty, else the per-user loop. -/
def sendDailyNewsSummary (d : DriverEnv) (users : List User) : DriverResult :=
  if users.length = 0 then .noUsers
  else .processed (users.map (processUser d))

/-- The `usersProcessed` count of the returned summary
(`usersWithNews.length`; the no-users early return reports none, counted 0). -/
def usersProcessed : DriverResult → Nat
  | .noUsers => 0
  | .processed entries => entries.length


/-! ## Basic lemmas about the loop state -/

theorem pushArticle_articles (e : Env) (st : LoopState) (a : FinnhubArticle) :
    (pushArticle e st a).articles = st.articles ++ [formatArticle (e.fresh st.counter) a] := rfl

theorem pushArticle_length (e : Env) (st : LoopState) (a : FinnhubArticle) :
    (pushArticle e st a).articles.length = st.articles.length + 1 := by
  simp [pushArticle]

theorem insertDesc_length (a : FormattedArticle) (l : List FormattedArticle) :
    (insertDesc a l).length = l.length + 1 := by
  induction l with
  | nil => rfl
  | cons b bs ih =>
    simp only [insertDesc]
    split <;> simp [ih]

theorem sortDesc_length (l : List FormattedArticle) :
    (sortDesc l).length = l.length := by
  induction l with
  | nil => rfl
  | cons a rest ih => simp [sortDesc, insertDesc_length, ih]


theorem pushArticle_seen (e : Env) (st : LoopState) (a : FinnhubArticle) :
    (pushArticle e st a).seen = st.seen ++ [keyStr a] := rfl

theorem pushArticle_raws (e : Env) (st : LoopState) (a : FinnhubArticle) :
    (pushArticle e st a).raws = st.raws ++ [a] := rfl

theorem pushArticle_calls (e : Env) (st : LoopState) (a : FinnhubArticle) :
    (pushArticle e st a).calls = st.calls := rfl

/-- The intermediate state of a company round after recording the adapter
call and before the fetch result is inspected. -/
def withCall (st : LoopState) (s : String) : LoopState :=
  { st with calls := st.calls ++ [Call.company s] }

theorem withCall_articles (st : LoopState) (s : String) :
    (withCall st s).articles = st.articles := rfl

theorem withCall_seen (st : LoopState) (s : String) :
    (withCall st s).seen = st.seen := rfl

theorem withCall_raws (st : LoopState) (s : String) :
    (withCall st s).raws = st.raws := rfl

/-- The symbol fetched in round `r` of company mode. -/
def roundSym (cleaned : List String) (r : Nat) : String :=
  cleaned.getD (r % cleaned.length) ""

/-- One-step equation: a company round whose fetch fails continues with the
next round (the `catch` logs and `continue`s). -/
theorem companyRounds_cons_error (e : Env) (c : List String) (r : Nat)
    (rest : List Nat) (st : LoopState) (u : Unit)
    (hf : e.fetchCompany (roundSym c r) = .error u) :
    companyRounds e c (r :: rest) st =
      companyRounds e c rest (withCall st (roundSym c r)) := by
  simp only [companyRounds, roundSym, withCall] at hf ⊢
  rw [hf]

/-- One-step equation: a company round whose fetch succeeds and whose
response contains a fresh valid article accepts it, then either breaks at
six articles or continues. -/
theorem companyRounds_cons_some (e : Env) (c : List String) (r : Nat)
    (rest : List Nat) (st : LoopState) (data : List FinnhubArticle)
    (a : FinnhubArticle)
    (hf : e.fetchCompany (roundSym c r) = .ok data)
    (hfind : findFirstNew st.seen data = some a) :
    companyRounds e c (r :: rest) st =
      (if 6 ≤ (pushArticle e (withCall st (roundSym c r)) a).articles.length
       then pushArticle e (withCall st (roundSym c r)) a
       else companyRounds e c rest (pushArticle e (withCall st (roundSym c r)) a)) := by
  simp only [companyRounds, roundSym, withCall] at hf hfind ⊢
  rw [hf]
  rw [show ({ st with calls := st.calls ++ [Call.company (c.getD (r % c.length) "")] } : LoopState).seen = st.seen from rfl]
  simp only [hfind]

/-- One-step equation: a company round whose fetch succeeds but contributes
no article either breaks at six articles or continues. -/
theorem companyRounds_cons_none (e : Env) (c : List String) (r : Nat)
    (rest : List Nat) (st : LoopState) (data : List FinnhubArticle)
    (hf : e.fetchCompany (roundSym c r) = .ok data)
    (hfind : findFirstNew st.seen data = none) :
    companyRounds e c (r :: rest) st =
      (if 6 ≤ st.articles.length then withCall st (roundSym c r)
       else companyRounds e c rest (withCall st (roundSym c r))) := by
  simp only [companyRounds, roundSym, withCall] at hf hfind ⊢
  rw [hf]
  simp only [hfind]

/-- One-step equation for the general scan when the article is accepted. -/
theorem generalScan_cons_pos (e : Env) (a : FinnhubArticle)
    (rest : List FinnhubArticle) (st : LoopState)
    (h : (validateArticle a && strTruthy (dedupeKey a) &&
          !(st.seen.contains (keyStr a))) = true) :
    generalScan e (a :: rest) st =
      (if 6 ≤ (pushArticle e st a).articles.length then pushArticle e st a
       else generalScan e rest (pushArticle e st a)) := by
  simp only [generalScan, h, if_true]

/-- One-step equation for the general scan when the article is skipped. -/
theorem generalScan_cons_neg (e : Env) (a : FinnhubArticle)
    (rest : List FinnhubArticle) (st : LoopState)
    (h : (validateArticle a && strTruthy (dedupeKey a) &&
          !(st.seen.contains (keyStr a))) = false) :
    generalScan e (a :: rest) st = generalScan e rest st := by
  simp only [generalScan]
  rw [h]
  simp

/-! ## Length bounds (claim C3) -/

theorem generalScan_length_le (e : Env) (data : List FinnhubArticle) :
    ∀ st : LoopState, st.articles.length < 6 →
      (generalScan e data st).articles.length ≤ 6 := by
  induction data with
  | nil => intro st h; exact le_of_lt h
  | cons a rest ih =>
    intro st h
    cases hc : (validateArticle a && strTruthy (dedupeKey a) &&
        !(st.seen.contains (keyStr a))) with
    | true =>
      rw [generalScan_cons_pos e a rest st hc]
      have hlen := pushArticle_length e st a
      split
      · omega
      · exact ih _ (by omega)
    | false =>
      rw [generalScan_cons_neg e a rest st hc]
      exact ih st h

theorem companyRounds_length_le (e : Env) (c : List String) (rs : List Nat) :
    ∀ st : LoopState,
      (companyRounds e c rs st).articles.length ≤ st.articles.length + rs.length := by
  induction rs with
  | nil => intro st; simp [companyRounds]
  | cons r rest ih =>
    intro st
    cases hf : e.fetchCompany (roundSym c r) with
    | error u =>
      rw [companyRounds_cons_error e c r rest st u hf]
      have := ih (withCall st (roundSym c r))
      rw [withCall_articles] at this
      calc (companyRounds e c rest (withCall st (roundSym c r))).articles.length
          ≤ st.articles.length + rest.length := this
        _ ≤ st.articles.length + (r :: rest).length := by simp
    | ok data =>
      cases hfind : findFirstNew st.seen data with
      | some a =>
        rw [companyRounds_cons_some e c r rest st data a hf hfind]
        have hpl : (pushArticle e (withCall st (roundSym c r)) a).articles.length
            = st.articles.length + 1 := by
          rw [pushArticle_length, withCall_articles]
        split
        · rw [hpl]; simp
        · have := ih (pushArticle e (withCall st (roundSym c r)) a)
          rw [hpl] at this
          calc (companyRounds e c rest (pushArticle e (withCall st (roundSym c r)) a)).articles.length
              ≤ st.articles.length + 1 + rest.length := this
            _ ≤ st.articles.length + (r :: rest).length := by simp; omega
      | none =>
        rw [companyRounds_cons_none e c r rest st data hf hfind]
        split
        · rw [withCall_articles]; simp
        · have := ih (withCall st (roundSym c r))
          rw [withCall_articles] at this
          calc (companyRounds e c rest (withCall st (roundSym c r))).articles.length
              ≤ st.articles.length + rest.length := this
            _ ≤ st.articles.length + (r :: rest).length := by simp

/-! ## Branch equations for `getNews` -/

theorem getNews_noKey (e : Env) (symbols? : Option (List String))
    (hk : strTruthy e.apiKey = false) :
    getNews e symbols? = { result := .error "Failed to fetch news", calls := [] } := by
  simp [getNews, hk]

theorem getNews_none (e : Env) (hk : strTruthy e.apiKey = true) :
    getNews e none = generalNews e := by
  simp [getNews, hk]

theorem getNews_someEmpty (e : Env) (syms : List String)
    (hk : strTruthy e.apiKey = true) (hs : syms.length = 0) :
    getNews e (some syms) = generalNews e := by
  simp [getNews, hk, hs]

theorem getNews_cleanedEmpty (e : Env) (syms : List String)
    (hk : strTruthy e.apiKey = true) (hs : 0 < syms.length)
    (hc : (cleanSymbols syms).length = 0) :
    getNews e (some syms) = { result := .ok [], calls := [] } := by
  simp [getNews, hk, hs, hc]

theorem getNews_company (e : Env) (syms : List String)
    (hk : strTruthy e.apiKey = true) (hs : 0 < syms.length)
    (hc : ¬ (cleanSymbols syms).length = 0) :
    getNews e (some syms) =
      { result := .ok ((sortDesc (companyRounds e (cleanSymbols syms)
                    (List.range 6) initState).articles).take 6)
        calls := (companyRounds e (cleanSymbols syms) (List.range 6) initState).calls } := by
  simp [getNews, hk, hs, hc]

theorem generalNews_error (e : Env) (u : Unit) (hf : e.fetchGeneral = .error u) :
    generalNews e = { result := .error "Failed to fetch news", calls := [Call.general] } := by
  simp [generalNews, hf]

theorem generalNews_ok (e : Env) (data : List FinnhubArticle)
    (hf : e.fetchGeneral = .ok data) :
    generalNews e =
      { result := .ok (sortDesc (generalScan e data
                    { initState with calls := [Call.general] }).articles)
        calls := (generalScan e data { initState with calls := [Call.general] }).calls } := by
  simp [generalNews, hf]

/-- `generalNews` always returns at most six articles when it succeeds. -/
theorem generalNews_length_le (e : Env) (l : List FormattedArticle)
    (h : (generalNews e).result = .ok l) : l.length ≤ 6 := by
  cases hf : e.fetchGeneral with
  | error u =>
    rw [generalNews_error e u hf] at h
    cases h
  | ok data =>
    rw [generalNews_ok e data hf] at h
    cases h
    rw [sortDesc_length]
    exact generalScan_length_le e data _ (by simp [initState])

/-! ## Concrete fixtures used to instantiate the theorems -/

/-- A complete, valid raw article. -/
def artA : FinnhubArticle :=
  { id := some "a1", url := some "uA", headline := some "hA", summary := some "sA"
    image := some "iA", source := some "SA", category := some "c"
    datetime := some 5 }

/-- A second valid raw article, newer and with a distinct key. -/
def artB : FinnhubArticle :=
  { id := some "b1", url := some "uB", headline := some "hB", summary := none
    image := none, source := some "SB", category := none, datetime := some 9 }

/-- Environment with the key set, every company fetch succeeding with one
article and the general feed succeeding with two. -/
def envOk : Env :=
  { apiKey := some "key"
    fetchCompany := fun _ => .ok [artA]
    fetchGeneral := .ok [artA, artB]
    now := 0
    rand := fun _ => "r" }

/-- `envOk` with the API key unset. -/
def envNoKey : Env := { envOk with apiKey := none }

/-- `envOk` with a failing general feed. -/
def envGenFail : Env := { envOk with fetchGeneral := .error () }

/-- `envOk` with every company fetch failing. -/
def envCompanyFail : Env := { envOk with fetchCompany := fun _ => .error () }

/-- `envOk` with an empty general feed. -/
def envEmptyFeed : Env := { envOk with fetchGeneral := .ok [] }

/-! ## Claim C3 -/

/-- **C3.** For every input symbol list (and also in general-news mode),
the sequence returned by `getNews` has length at most 6. -/
theorem getNews_budget (e : Env) (symbols? : Option (List String))
    (l : List FormattedArticle) (h : (getNews e symbols?).result = .ok l) :
    l.length ≤ 6 := by
  cases hk : strTruthy e.apiKey with
  | false => rw [getNews_noKey e symbols? hk] at h; cases h
  | true =>
    cases symbols? with
    | none =>
      rw [getNews_none e hk] at h
      exact generalNews_length_le e l h
    | some syms =>
      rcases Nat.eq_zero_or_pos syms.length with hs | hs
      · rw [getNews_someEmpty e syms hk hs] at h
        exact generalNews_length_le e l h
      · by_cases hc : (cleanSymbols syms).length = 0
        · rw [getNews_cleanedEmpty e syms hk hs hc] at h
          cases h
          simp
        · rw [getNews_company e syms hk hs hc] at h
          cases h
          exact List.length_take_le 6 _

theorem getNews_budget_witness :
    (getNews envEmptyFeed none).result = .ok [] ∧
      ([] : List FormattedArticle).length ≤ 6 :=
  ⟨by rfl, getNews_budget envEmptyFeed none [] (by rfl)⟩

/-! ## Claim C10 -/

/-- **C10.** If the `FINNHUB_API_KEY` configuration value is absent (falsy),
`getNews` throws `'Failed to fetch news'` for every input — including inputs
such as symbol lists that normalize to empty — and performs no adapter call:
the key check precedes all other logic and the outer catch rewraps the
failure. -/
theorem getNews_missingKey (e : Env) (symbols? : Option (List String))
    (hk : strTruthy e.apiKey = false) :
    (getNews e symbols?).result = .error "Failed to fetch news" ∧
      (getNews e symbols?).calls = [] := by
  rw [getNews_noKey e symbols? hk]
  exact ⟨rfl, rfl⟩

theorem getNews_missingKey_witness :
    strTruthy envNoKey.apiKey = false ∧
      (getNews envNoKey (some ["  "])).result = .error "Failed to fetch news" :=
  ⟨by rfl, (getNews_missingKey envNoKey (some ["  "]) (by rfl)).1⟩

/-! ## Claim C8: the validator -/

theorem strTruthy_iff (o : Option String) :
    strTruthy o = true ↔ ∃ s, o = some s ∧ s ≠ "" := by
  cases o with
  | none => simp [strTruthy]
  | some s => simp [strTruthy]

theorem intTruthy_iff (o : Option Int) :
    intTruthy o = true ↔ ∃ n, o = some n ∧ n ≠ 0 := by
  cases o with
  | none => simp [intTruthy]
  | some n => simp [intTruthy]

/-- **C8.** `validateArticle` returns true iff (headline present or url
present) and source present and datetime present and non-zero — presence
following the source's JavaScript truthiness, under which an empty string
counts as absent.  In particular an article missing `source` is rejected
regardless of its other fields, and an article with `datetime = 0` is
rejected. -/
theorem validateArticle_spec (a : FinnhubArticle) :
    (validateArticle a = true ↔
      (((∃ s, a.headline = some s ∧ s ≠ "") ∨ (∃ s, a.url = some s ∧ s ≠ "")) ∧
        (∃ s, a.source = some s ∧ s ≠ "") ∧
        (∃ n, a.datetime = some n ∧ n ≠ 0))) ∧
    (a.source = none → validateArticle a = false) ∧
    (a.datetime = some 0 → validateArticle a = false) := by
  refine ⟨?_, ?_, ?_⟩
  · simp [validateArticle, Bool.and_eq_true, Bool.or_eq_true,
      strTruthy_iff, intTruthy_iff, and_assoc]
  · intro h
    simp [validateArticle, h, strTruthy]
  · intro h
    simp [validateArticle, h, intTruthy]

theorem validateArticle_spec_witness :
    validateArticle { artA with source := none } = false ∧
      validateArticle { artA with datetime := some 0 } = false :=
  ⟨(validateArticle_spec _).2.1 rfl, (validateArticle_spec _).2.2 rfl⟩

/-! ## Claim C9: normalization defaults -/

/-- The raw article with every field absent. -/
def emptyRaw : FinnhubArticle :=
  { id := none, url := none, headline := none, summary := none, image := none
    source := none, category := none, datetime := none }

theorem fresh_ne_empty (e : Env) (k : Nat) : e.fresh k ≠ "" := by
  intro h
  have hlen : (e.fresh k).length = 0 := by rw [h]; rfl
  rw [Env.fresh] at hlen
  have hdash : ("-" : String).length = 1 := rfl
  simp [String.length_append, hdash] at hlen

theorem jsOrStr_ne_empty (o : Option String) (b : String) (hb : b ≠ "") :
    jsOrStr o b ≠ "" := by
  cases o with
  | none => simpa [jsOrStr] using hb
  | some s =>
    by_cases hs : s = ""
    · simpa [jsOrStr, hs] using hb
    · simp [jsOrStr, hs]

theorem jsOrStr_of_falsy (o : Option String) (b : String)
    (h : strTruthy o = false) : jsOrStr o b = b := by
  cases o with
  | none => rfl
  | some s =>
    simp [strTruthy] at h
    simp [jsOrStr, h]

/-- **C9.** `formatArticle` always produces an identifier that is a
non-empty string — the raw id, else the raw url, else the generated
fallback `Date.now()-Math.random()` — and defaults every other field:
placeholder headline, empty summary, source `"Unknown"`, empty url,
datetime `0`, absent-marker image.  Every field of the result is total
(defined), by the type `FormattedArticle` itself. -/
theorem formatArticle_defaults (e : Env) (k : Nat) (a : FinnhubArticle) :
    (formatArticle (e.fresh k) a).id ≠ "" ∧
    (strTruthy a.id = false → strTruthy a.url = false →
      (formatArticle (e.fresh k) a).id = e.fresh k) ∧
    formatArticle (e.fresh k) emptyRaw =
      { id := e.fresh k, headline := "No headline", summary := "", image := none
        source := "Unknown", url := "", datetime := 0 } := by
  refine ⟨?_, ?_, rfl⟩
  · exact jsOrStr_ne_empty _ _ (jsOrStr_ne_empty _ _ (fresh_ne_empty e k))
  · intro hid hurl
    show jsOrStr a.id (jsOrStr a.url (e.fresh k)) = e.fresh k
    rw [jsOrStr_of_falsy a.id _ hid, jsOrStr_of_falsy a.url _ hurl]

theorem formatArticle_defaults_witness :
    strTruthy emptyRaw.id = false ∧
      (formatArticle (envOk.fresh 0) emptyRaw).id = envOk.fresh 0 :=
  ⟨rfl, (formatArticle_defaults envOk 0 emptyRaw).2.1 rfl rfl⟩

/-! ## Claim C1: explicitly empty symbol list -/

/-- **C1 (counterexample).** With the key set and a non-empty general feed,
`getNews` applied to the explicitly empty symbol list `[]` does invoke the
source adapter (one general-news call), behaves exactly as the call with no
symbols argument, and returns a non-empty sequence — refuting the claim
that `selectNews([])` returns `[]` without any adapter call and that
general mode is entered only when no symbols argument is passed. -/
theorem getNews_emptyList_counterexample :
    (getNews envOk (some [])).calls = [Call.general] ∧
      getNews envOk (some []) = getNews envOk none ∧
      (getNews envOk (some [])).result =
        .ok [formatArticle (envOk.fresh 1) artB, formatArticle (envOk.fresh 0) artA] :=
  ⟨rfl, rfl, rfl⟩

/-- **C1 (amended).** For a non-empty symbol list that normalizes to empty,
`getNews` returns the empty sequence without invoking the source adapter at
all; general-news mode is entered both when the caller passes no symbols
argument and when it passes an explicitly empty list. -/
theorem getNews_emptyInput_amended (e : Env) (syms : List String)
    (hk : strTruthy e.apiKey = true) (hs : 0 < syms.length)
    (hc : (cleanSymbols syms).length = 0) :
    getNews e (some syms) = { result := .ok [], calls := [] } ∧
      getNews e (some []) = getNews e none := by
  refine ⟨getNews_cleanedEmpty e syms hk hs hc, ?_⟩
  rw [getNews_someEmpty e [] hk rfl, getNews_none e hk]

theorem getNews_emptyInput_amended_witness :
    strTruthy envOk.apiKey = true ∧ (cleanSymbols [" "]).length = 0 ∧
      getNews envOk (some [" "]) = { result := .ok [], calls := [] } :=
  ⟨rfl, by decide,
    (getNews_emptyInput_amended envOk [" "] rfl (by decide) (by decide)).1⟩

/-! ## Sortedness and stability of `sortDesc` (claim C6) -/

theorem mem_insertDesc (x : FormattedArticle) (l : List FormattedArticle)
    (y : FormattedArticle) : y ∈ insertDesc x l ↔ y = x ∨ y ∈ l := by
  induction l with
  | nil => simp [insertDesc]
  | cons b bs ih =>
    by_cases hb : b.datetime ≤ x.datetime
    · simp [insertDesc, hb]
    · simp [insertDesc, hb, ih]
      tauto

theorem insertDesc_pairwise (x : FormattedArticle) (l : List FormattedArticle)
    (h : l.Pairwise (fun a b => b.datetime ≤ a.datetime)) :
    (insertDesc x l).Pairwise (fun a b => b.datetime ≤ a.datetime) := by
  induction l with
  | nil => simp [insertDesc]
  | cons b bs ih =>
    rcases List.pairwise_cons.mp h with ⟨hb, hbs⟩
    by_cases hbx : b.datetime ≤ x.datetime
    · rw [insertDesc, if_pos hbx]
      refine List.pairwise_cons.mpr ⟨?_, h⟩
      intro y hy
      rcases List.mem_cons.mp hy with rfl | hy
      · exact hbx
      · exact le_trans (hb y hy) hbx
    · rw [insertDesc, if_neg hbx]
      refine List.pairwise_cons.mpr ⟨?_, ih hbs⟩
      intro y hy
      rcases (mem_insertDesc x bs y).mp hy with rfl | hy
      · exact le_of_lt (lt_of_not_le hbx)
      · exact hb y hy

theorem sortDesc_pairwise (l : List FormattedArticle) :
    (sortDesc l).Pairwise (fun a b => b.datetime ≤ a.datetime) := by
  induction l with
  | nil => simp [sortDesc]
  | cons a rest ih => exact insertDesc_pairwise a (sortDesc rest) ih

theorem filter_insertDesc_eq (a : FormattedArticle) (l : List FormattedArticle)
    (d : Int) (h : a.datetime = d) :
    (insertDesc a l).filter (fun x => x.datetime == d) =
      a :: l.filter (fun x => x.datetime == d) := by
  induction l with
  | nil => simp [insertDesc, h]
  | cons b bs ih =>
    by_cases hb : b.datetime ≤ a.datetime
    · rw [insertDesc, if_pos hb]
      simp [List.filter_cons, h]
    · rw [insertDesc, if_neg hb]
      have hbd : (b.datetime == d) = false := by
        simp only [beq_eq_false_iff_ne, ne_eq]
        omega
      simp [List.filter_cons, hbd, ih]

theorem filter_insertDesc_ne (a : FormattedArticle) (l : List FormattedArticle)
    (d : Int) (h : ¬ a.datetime = d) :
    (insertDesc a l).filter (fun x => x.datetime == d) =
      l.filter (fun x => x.datetime == d) := by
  induction l with
  | nil => simp [insertDesc, h]
  | cons b bs ih =>
    by_cases hb : b.datetime ≤ a.datetime
    · rw [insertDesc, if_pos hb]
      simp [List.filter_cons, h]
    · rw [insertDesc, if_neg hb]
      simp [List.filter_cons, ih]

/-- Stability of the sort: for every timestamp, the articles carrying it
appear in the sorted output in exactly their original accumulation order. -/
theorem sortDesc_filter (l : List FormattedArticle) (d : Int) :
    (sortDesc l).filter (fun x => x.datetime == d) =
      l.filter (fun x => x.datetime == d) := by
  induction l with
  | nil => rfl
  | cons a rest ih =>
    by_cases h : a.datetime = d
    · rw [sortDesc, filter_insertDesc_eq a _ d h, ih]
      simp [List.filter_cons, h]
    · rw [sortDesc, filter_insertDesc_ne a _ d h, ih]
      simp [List.filter_cons, h]

/-! ## Claim C6 -/

/-- **C6.** Every sequence returned by `getNews` is sorted non-increasing in
`datetime` (`publishedAt`); the sort is stable with no secondary key, so
articles with equal `datetime` keep their accumulation order (for every
timestamp, filtering the sorted list gives exactly the filtered input); and
in company mode the sort is applied to the whole accumulated list before
truncation to the first 6. -/
theorem getNews_sorted_stable (e : Env) (symbols? : Option (List String))
    (l : List FormattedArticle) :
    ((getNews e symbols?).result = .ok l →
      l.Pairwise (fun a b => b.datetime ≤ a.datetime)) ∧
    (∀ (m : List FormattedArticle) (d : Int),
      (sortDesc m).filter (fun x => x.datetime == d) =
        m.filter (fun x => x.datetime == d)) ∧
    (∀ syms : List String, strTruthy e.apiKey = true → 0 < syms.length →
      ¬ (cleanSymbols syms).length = 0 →
      (getNews e (some syms)).result =
        .ok ((sortDesc (companyRounds e (cleanSymbols syms) (List.range 6)
            initState).articles).take 6)) := by
  refine ⟨?_, sortDesc_filter, ?_⟩
  · intro h
    cases hk : strTruthy e.apiKey with
    | false => rw [getNews_noKey e symbols? hk] at h; cases h
    | true =>
      have hgen : ∀ hg : (generalNews e).result = .ok l,
          l.Pairwise (fun a b => b.datetime ≤ a.datetime) := by
        intro hg
        cases hf : e.fetchGeneral with
        | error u => rw [generalNews_error e u hf] at hg; cases hg
        | ok data =>
          rw [generalNews_ok e data hf] at hg
          cases hg
          exact sortDesc_pairwise _
      cases symbols? with
      | none =>
        rw [getNews_none e hk] at h
        exact hgen h
      | some syms =>
        rcases Nat.eq_zero_or_pos syms.length with hs | hs
        · rw [getNews_someEmpty e syms hk hs] at h
          exact hgen h
        · by_cases hc : (cleanSymbols syms).length = 0
          · rw [getNews_cleanedEmpty e syms hk hs hc] at h
            cases h
            simp
          · rw [getNews_company e syms hk hs hc] at h
            cases h
            exact (sortDesc_pairwise _).sublist (List.take_sublist 6 _)
  · intro syms hk hs hc
    rw [getNews_company e syms hk hs hc]

theorem getNews_sorted_stable_witness :
    (getNews envOk none).result =
        .ok [formatArticle (envOk.fresh 1) artB, formatArticle (envOk.fresh 0) artA] ∧
      ([formatArticle (envOk.fresh 1) artB,
        formatArticle (envOk.fresh 0) artA].Pairwise
          (fun a b => b.datetime ≤ a.datetime)) :=
  ⟨by rfl, (getNews_sorted_stable envOk none _).1 (by rfl)⟩

/-! ## Claim C7: deduplication -/

/-- The deduplication invariant of both selection loops: the seen set is
exactly the list of dedupe keys of the accepted raw articles, those keys are
pairwise distinct, and exactly one formatted article was appended per
accepted raw article. -/
def DedupInv (st : LoopState) : Prop :=
  st.seen = st.raws.map keyStr ∧ st.seen.Nodup ∧
    st.articles.length = st.raws.length

theorem dedupInv_init : DedupInv initState :=
  ⟨rfl, List.nodup_nil, rfl⟩

theorem dedupInv_withCall (st : LoopState) (s : String) (h : DedupInv st) :
    DedupInv (withCall st s) := h

theorem pushArticle_inv (e : Env) (st : LoopState) (a : FinnhubArticle)
    (h : DedupInv st) (hk : st.seen.contains (keyStr a) = false) :
    DedupInv (pushArticle e st a) := by
  obtain ⟨h1, h2, h3⟩ := h
  have hmem : keyStr a ∉ st.seen := by simpa using hk
  refine ⟨?_, ?_, ?_⟩
  · rw [pushArticle_seen, pushArticle_raws, List.map_append, h1]
    rfl
  · rw [pushArticle_seen]
    simp [List.nodup_append, h2, hmem]
  · simp [pushArticle, h3]

theorem findFirstNew_eq_some (seen : List String) (data : List FinnhubArticle)
    (a : FinnhubArticle) (h : findFirstNew seen data = some a) :
    validateArticle a = true ∧ strTruthy (dedupeKey a) = true ∧
      seen.contains (keyStr a) = false := by
  induction data with
  | nil => cases h
  | cons b rest ih =>
    cases hc : (validateArticle b && strTruthy (dedupeKey b) &&
        !(seen.contains (keyStr b))) with
    | true =>
      rw [findFirstNew, if_pos hc] at h
      cases h
      simp only [Bool.and_eq_true, Bool.not_eq_true'] at hc
      exact ⟨hc.1.1, hc.1.2, hc.2⟩
    | false =>
      rw [findFirstNew] at h
      rw [hc] at h
      simp only [Bool.false_eq_true, if_false] at h
      exact ih h

theorem generalScan_inv (e : Env) (data : List FinnhubArticle) :
    ∀ st : LoopState, DedupInv st → DedupInv (generalScan e data st) := by
  induction data with
  | nil => intro st h; exact h
  | cons a rest ih =>
    intro st h
    cases hc : (validateArticle a && strTruthy (dedupeKey a) &&
        !(st.seen.contains (keyStr a))) with
    | true =>
      rw [generalScan_cons_pos e a rest st hc]
      have hk : st.seen.contains (keyStr a) = false := by
        simp only [Bool.and_eq_true, Bool.not_eq_true'] at hc
        exact hc.2
      have h' := pushArticle_inv e st a h hk
      split
      · exact h'
      · exact ih _ h'
    | false =>
      rw [generalScan_cons_neg e a rest st hc]
      exact ih st h

theorem companyRounds_inv (e : Env) (c : List String) (rs : List Nat) :
    ∀ st : LoopState, DedupInv st → DedupInv (companyRounds e c rs st) := by
  induction rs with
  | nil => intro st h; exact h
  | cons r rest ih =>
    intro st h
    cases hf : e.fetchCompany (roundSym c r) with
    | error u =>
      rw [companyRounds_cons_error e c r rest st u hf]
      exact ih _ h
    | ok data =>
      cases hfind : findFirstNew st.seen data with
      | some a =>
        rw [companyRounds_cons_some e c r rest st data a hf hfind]
        have hspec := findFirstNew_eq_some st.seen data a hfind
        have h' : DedupInv (pushArticle e (withCall st (roundSym c r)) a) :=
          pushArticle_inv e _ a (dedupInv_withCall st _ h) hspec.2.2
        split
        · exact h'
        · exact ih _ h'
      | none =>
        rw [companyRounds_cons_none e c r rest st data hf hfind]
        split
        · exact dedupInv_withCall st _ h
        · exact ih _ (dedupInv_withCall st _ h)

/-- **C7.** In one `getNews` call, the dedupe keys (raw id, else raw url,
else raw headline) of the raw articles accepted into the result are pairwise
distinct — an article whose key was already seen in the same call is never
appended — in company mode and in general mode alike; exactly one formatted
article is appended per accepted raw article, so the returned articles (the
sorted/truncated `articles` field) carry pairwise distinct keys as well. -/
theorem dedupe_keys_distinct (e : Env) (syms : List String)
    (data : List FinnhubArticle) :
    (((companyRounds e (cleanSymbols syms) (List.range 6) initState).raws.map
        keyStr).Nodup ∧
      (companyRounds e (cleanSymbols syms) (List.range 6) initState).articles.length =
        (companyRounds e (cleanSymbols syms) (List.range 6) initState).raws.length) ∧
    (((generalScan e data { initState with calls := [Call.general] }).raws.map
        keyStr).Nodup ∧
      (generalScan e data { initState with calls := [Call.general] }).articles.length =
        (generalScan e data { initState with calls := [Call.general] }).raws.length) := by
  have hc := companyRounds_inv e (cleanSymbols syms) (List.range 6) initState dedupInv_init
  have hg := generalScan_inv e data { initState with calls := [Call.general] }
    (dedupInv_init : DedupInv initState)
  exact ⟨⟨hc.1 ▸ hc.2.1, hc.2.2⟩, ⟨hg.1 ▸ hg.2.1, hg.2.2⟩⟩

/-! ## Claim C5: company-mode round robin -/

/-- As long as the budget cannot yet be exhausted (at most one article is
accepted per round), the round-robin loop performs one adapter call per
remaining round, in order, fetching `cleaned[round % cleaned.length]`. -/
theorem companyRounds_calls (e : Env) (c : List String) :
    ∀ (rs : List Nat) (st : LoopState), st.articles.length + rs.length ≤ 6 →
      (companyRounds e c rs st).calls =
        st.calls ++ rs.map (fun r => Call.company (roundSym c r)) := by
  intro rs
  induction rs with
  | nil => intro st h; simp [companyRounds]
  | cons r rest ih =>
    intro st h
    rw [List.length_cons] at h
    cases hf : e.fetchCompany (roundSym c r) with
    | error u =>
      rw [companyRounds_cons_error e c r rest st u hf]
      rw [ih _ (by rw [withCall_articles]; omega)]
      simp [withCall]
    | ok data =>
      cases hfind : findFirstNew st.seen data with
      | some a =>
        rw [companyRounds_cons_some e c r rest st data a hf hfind]
        have hlen : (pushArticle e (withCall st (roundSym c r)) a).articles.length
            = st.articles.length + 1 := by
          rw [pushArticle_length, withCall_articles]
        split
        · rename_i hstop
          rw [hlen] at hstop
          have hrest : rest = [] := by
            rw [← List.length_eq_zero]
            omega
          subst hrest
          simp [pushArticle, withCall]
        · rw [ih _ (by rw [hlen]; omega)]
          simp [pushArticle, withCall]
      | none =>
        rw [companyRounds_cons_none e c r rest st data hf hfind]
        split
        · rename_i hstop
          exact absurd hstop (by omega)
        · rw [ih _ (by rw [withCall_articles]; omega)]
          simp [withCall]

/-- **C5.** In company mode `getNews` first cleans the symbols by trimming,
upper-casing, and dropping empties; a non-empty input that cleans to empty
yields the empty sequence with no adapter call (no fallback to general
news); otherwise the loop runs exactly 6 rounds, round `r` fetching
`cleaned[r % cleaned.length]` (wrapping around), and each round contributes
at most one article (the accumulated count grows by at most the number of
rounds). -/
theorem company_mode_rounds (e : Env) (symbols : List String)
    (hk : strTruthy e.apiKey = true) :
    (cleanSymbols symbols =
      (symbols.map (fun s => jsToUpper (jsTrim s))).filter (fun s => 0 < s.length)) ∧
    (symbols ≠ [] → cleanSymbols symbols = [] →
      getNews e (some symbols) = { result := .ok [], calls := [] }) ∧
    (cleanSymbols symbols ≠ [] →
      (getNews e (some symbols)).calls =
        (List.range 6).map (fun r =>
          Call.company ((cleanSymbols symbols).getD
            (r % (cleanSymbols symbols).length) ""))) ∧
    (∀ (rs : List Nat) (st : LoopState),
      (companyRounds e (cleanSymbols symbols) rs st).articles.length ≤
        st.articles.length + rs.length) := by
  refine ⟨rfl, ?_, ?_, companyRounds_length_le e (cleanSymbols symbols)⟩
  · intro hne hclean
    exact getNews_cleanedEmpty e symbols hk
      (List.length_pos.mpr hne) (by rw [hclean]; rfl)
  · intro hclean
    have hne : symbols ≠ [] := by
      intro hnil
      rw [hnil] at hclean
      exact hclean rfl
    have hc : ¬ (cleanSymbols symbols).length = 0 := by
      simpa [List.length_eq_zero] using hclean
    rw [getNews_company e symbols hk (List.length_pos.mpr hne) hc]
    rw [companyRounds_calls e (cleanSymbols symbols) (List.range 6) initState
      (by simp [initState])]
    simp [initState, roundSym]

theorem company_mode_rounds_witness :
    strTruthy envOk.apiKey = true ∧ cleanSymbols ["aapl", " msft "] ≠ [] ∧
      (getNews envOk (some ["aapl", " msft "])).calls =
        [Call.company "AAPL", Call.company "MSFT", Call.company "AAPL",
         Call.company "MSFT", Call.company "AAPL", Call.company "MSFT"] := by
  refine ⟨rfl, by decide, ?_⟩
  rw [(company_mode_rounds envOk ["aapl", " msft "] rfl).2.2.1 (by decide)]
  decide

/-! ## Claims C2 and C4: the driver -/

/-- `getNews` with no symbols fails with `'Failed to fetch news'` whenever
the general fetch fails, whatever the API key. -/
theorem getNews_none_error (e : Env) (hg : e.fetchGeneral = .error ()) :
    (getNews e none).result = .error "Failed to fetch news" := by
  cases hk : strTruthy e.apiKey with
  | false => rw [getNews_noKey e none hk]
  | true => rw [getNews_none e hk, generalNews_error e () hg]

/-- A user fixture. -/
def user1 : User := { id := "u1", email := "e1", name := "n1" }

/-- A second user fixture. -/
def user2 : User := { id := "u2", email := "e2", name := "n2" }

/-- Driver environment whose general feed fails and whose watchlist lookup
returns the empty list. -/
def dFail : DriverEnv :=
  { newsEnv := envGenFail, getWatchlist := fun _ => .ok [] }

/-- **C2.** Fetch failures are handled asymmetrically.  In company mode a
failed fetch for one round's symbol never aborts the selection: the result
is still a success and all 6 round fetches are performed (the loop continues
after a failed round).  In general mode a failed fetch fails `getNews`
itself with the thrown `'Failed to fetch news'` error.  The driver catches
that failure and records an empty article list for the user, and still
produces its batch for every non-empty user list rather than aborting. -/
theorem failure_asymmetry (e : Env) (symbols : List String) (d : DriverEnv)
    (u : User) :
    (strTruthy e.apiKey = true → cleanSymbols symbols ≠ [] →
      (∃ l, (getNews e (some symbols)).result = .ok l) ∧
        (getNews e (some symbols)).calls.length = 6) ∧
    (e.fetchGeneral = .error () →
      (getNews e none).result = .error "Failed to fetch news") ∧
    (d.getWatchlist u.email = .ok [] → d.newsEnv.fetchGeneral = .error () →
      (processUser d u).articles = []) ∧
    (∀ users : List User, users ≠ [] →
      sendDailyNewsSummary d users = .processed (users.map (processUser d))) := by
  refine ⟨?_, getNews_none_error e, ?_, ?_⟩
  · intro hk hclean
    have hne : symbols ≠ [] := by
      intro hnil
      rw [hnil] at hclean
      exact hclean rfl
    have hc : ¬ (cleanSymbols symbols).length = 0 := by
      simpa [List.length_eq_zero] using hclean
    rw [getNews_company e symbols hk (List.length_pos.mpr hne) hc]
    refine ⟨⟨_, rfl⟩, ?_⟩
    rw [companyRounds_calls e (cleanSymbols symbols) (List.range 6) initState
      (by simp [initState])]
    simp [initState]
  · intro hw hg
    have herr := getNews_none_error d.newsEnv hg
    simp only [processUser, hw]
    rw [show (if 0 < ([] : List String).length then some ([] : List String) else none) = none
      from rfl]
    rw [herr]
  · intro users hu
    have hlen : ¬ users.length = 0 := by
      simpa [List.length_eq_zero] using hu
    simp [sendDailyNewsSummary, hlen]

theorem failure_asymmetry_witness :
    (getNews envCompanyFail (some ["aapl"])).calls.length = 6 ∧
      (getNews envGenFail none).result = .error "Failed to fetch news" ∧
      (processUser dFail user1).articles = [] ∧
      sendDailyNewsSummary dFail [user1] = .processed [processUser dFail user1] :=
  ⟨((failure_asymmetry envCompanyFail ["aapl"] dFail user1).1 rfl (by decide)).2,
   (failure_asymmetry envGenFail [] dFail user1).2.1 rfl,
   (failure_asymmetry envGenFail [] dFail user1).2.2.1 rfl rfl,
   (failure_asymmetry envGenFail [] dFail user1).2.2.2 [user1] (by simp)⟩

/-- **C4.** For every non-empty user list from the directory lookup, the
driver produces exactly one result entry per user, in order, with
`usersProcessed` equal to the input user count — whatever the watchlist
lookups and news fetches do (the per-user failures are caught inside
`processUser`, so no exception escapes the run; the embedding of the run is
a total function). -/
theorem runBatch_per_user (d : DriverEnv) (users : List User)
    (hu : users ≠ []) :
    sendDailyNewsSummary d users = .processed (users.map (processUser d)) ∧
      (users.map (processUser d)).length = users.length ∧
      (users.map (processUser d)).map (fun w => w.userId) =
        users.map (fun u => u.id) ∧
      usersProcessed (sendDailyNewsSummary d users) = users.length := by
  have hlen : ¬ users.length = 0 := by
    simpa [List.length_eq_zero] using hu
  refine ⟨by simp [sendDailyNewsSummary, hlen], by simp, ?_, ?_⟩
  · rw [List.map_map]
    rfl
  · simp [sendDailyNewsSummary, hlen, usersProcessed]

theorem runBatch_per_user_witness :
    ([user1, user2] : List User) ≠ [] ∧
      usersProcessed (sendDailyNewsSummary dFail [user1, user2]) = 2 :=
  ⟨by simp, (runBatch_per_user dFail [user1, user2] (by simp)).2.2.2⟩
